import Mathlib

/-!
Shallow embedding of the `ResponseCache` class (response memoization cache)
from the repository's two near-duplicate implementations.  The richer
implementation (the one with `getMetadata`, `export` and `import`) is
embedded; where the two copies overlap (`generateKey`, `get`, `set`,
`evictLRU`, `getStats`, `clear`) the second copy agrees on every branch
relevant to the claims (both check `size >= maxSize` unconditionally before
`set`, both treat `now > expiresAt` as expired with `>` strict).

Modelling conventions:
* JS `Map` is modelled as an association list `List (String × Entry V)`
  with `Map.get`/`Map.set`/`Map.delete` semantics (`mapGet`, `mapSet`,
  `mapDelete`): `set` overwrites in place keeping insertion order,
  otherwise appends; iteration is list order, matching JS `Map` insertion
  order.  Real caches have pairwise distinct keys; where a theorem counts
  entries, that invariant is an explicit `Nodup` hypothesis.
* `Date.now()` is passed explicitly as a `now : Nat` argument to every
  operation that reads the clock.
* The cached payload is an opaque type parameter `V`.
  `JSON.stringify(response).length` is opaque to the cache, so `set` takes
  the serialized length as an explicit `respLen` argument.
* JS `x || d` on numeric options is falsy at `0`, modelled by `ttlOr`.
* `Buffer.from(s).toString('base64').substring(0, 64)` is modelled by real
  UTF-8 byte encoding followed by standard base64 and `List.take 64`.
* `stats.hitRate` in the source is the number `hits / total * 100`
  formatted by `toFixed(2)` with a trailing percent sign; the embedding
  keeps the exact numeric value `hitRatePct : ℚ` and abstracts the
  decimal-string formatting, which is display only.
* `console.warn` output is outside the model.
-/

/-- `Map.get`: first (unique) binding for a key, if any. -/
def mapGet {α : Type} : List (String × α) → String → Option α
  | [], _ => none
  | (k', v') :: rest, k => if k' = k then some v' else mapGet rest k

/-- `Map.set`: overwrite in place preserving position, else append. -/
def mapSet {α : Type} : List (String × α) → String → α → List (String × α)
  | [], k, v => [(k, v)]
  | (k', v') :: rest, k, v =>
      if k' = k then (k, v) :: rest else (k', v') :: mapSet rest k v

/-- `Map.delete`: remove the bindings of a key. -/
def mapDelete {α : Type} (l : List (String × α)) (k : String) : List (String × α) :=
  l.filter (fun q => q.1 ≠ k)

/-- UTF-8 encoding of one character (what `Buffer.from` does per code point). -/
def utf8Bytes (c : Char) : List Nat :=
  let n := c.toNat
  if n < 128 then [n]
  else if n < 2048 then [192 + n / 64, 128 + n % 64]
  else if n < 65536 then [224 + n / 4096, 128 + n / 64 % 64, 128 + n % 64]
  else [240 + n / 262144, 128 + n / 4096 % 64, 128 + n / 64 % 64, 128 + n % 64]

/-- UTF-8 bytes of a string. -/
def strBytes (s : String) : List Nat :=
  (s.data.map utf8Bytes).flatten

/-- The standard base64 alphabet. -/
def b64Alphabet : List Char :=
  "ABCDEFGHIJKLMNOPQRSTUVWXYZabcdefghijklmnopqrstuvwxyz0123456789+/".data

/-- Character for one 6-bit group. -/
def b64Char (n : Nat) : Char :=
  b64Alphabet.getD n 'A'

/-- Standard base64 of a byte list, 3 bytes to 4 characters, '=' padding. -/
def base64Chunks : List Nat → List Char
  | [] => []
  | [a] => [b64Char (a / 4), b64Char (a % 4 * 16), '=', '=']
  | [a, b] => [b64Char (a / 4), b64Char (a % 4 * 16 + b / 16), b64Char (b % 16 * 4), '=']
  | a :: b :: c :: rest =>
      b64Char (a / 4) :: b64Char (a % 4 * 16 + b / 16) ::
        b64Char (b % 16 * 4 + c / 64) :: b64Char (c % 64) :: base64Chunks rest

/-- `generateKey(prompt, model, options)`:
`Buffer.from(model + ":" + prompt + ":" + JSON.stringify(options))
.toString('base64').substring(0, 64)`.  `opts` is the already-serialized
options object; callers inside the class pass the default `\x7b\x7d`. -/
def generateKey (prompt model opts : String) : String :=
  String.mk ((base64Chunks (strBytes (model ++ ":" ++ prompt ++ ":" ++ opts))).take 64)

/-- The serialized default `options = \x7b\x7d` used by `get`/`set`. -/
def defaultOpts : String := "\x7b\x7d"

/-- One cache entry, with every field the source stores. -/
structure Entry (V : Type) where
  response : V
  createdAt : Nat
  expiresAt : Nat
  lastAccessed : Nat
  accessCount : Nat
  model : String
  promptLength : Nat
  responseLength : Nat
  deriving Repr, DecidableEq

/-- The `this.stats` counter record. -/
structure Stats where
  hits : Nat
  misses : Nat
  sets : Nat
  clears : Nat
  deriving Repr, DecidableEq

/-- The `ResponseCache` instance state. -/
structure ResponseCache (V : Type) where
  cache : List (String × Entry V)
  stats : Stats
  defaultTTL : Nat
  maxSize : Nat
  compressionThreshold : Nat
  deriving Repr, DecidableEq

/-- JS `x || d` for an optional numeric option: `0` is falsy. -/
def ttlOr (x : Option Nat) (d : Nat) : Nat :=
  match x with
  | none => d
  | some t => if t = 0 then d else t

/-- The constructor: `new ResponseCache(options)`. -/
def mkResponseCache {V : Type} (ttl maxSize compressionThreshold : Option Nat) :
    ResponseCache V :=
  { cache := []
    stats := { hits := 0, misses := 0, sets := 0, clears := 0 }
    defaultTTL := ttlOr ttl 3600000
    maxSize := ttlOr maxSize 1000
    compressionThreshold := ttlOr compressionThreshold 5000 }

/-- `get(prompt, model)`: returns the value (or `none`) and the successor
state.  Misses on absence; lazily deletes and misses when
`now > expiresAt`; on a hit bumps `lastAccessed` and `accessCount`. -/
def ResponseCache.get {V : Type} (c : ResponseCache V) (now : Nat)
    (prompt model : String) : Option V × ResponseCache V :=
  let key := generateKey prompt model defaultOpts
  match mapGet c.cache key with
  | none =>
      (none, { c with stats := { c.stats with misses := c.stats.misses + 1 } })
  | some entry =>
      if now > entry.expiresAt then
        (none, { c with
                  cache := mapDelete c.cache key
                  stats := { c.stats with misses := c.stats.misses + 1 } })
      else
        (some entry.response,
         { c with
            cache := mapSet c.cache key
              { entry with lastAccessed := now, accessCount := entry.accessCount + 1 }
            stats := { c.stats with hits := c.stats.hits + 1 } })

/-- The fold inside `evictLRU`: carries `(lruKey, lruTime)`, where the
initial JS pair `(null, Infinity)` is the accumulator `none` (every finite
`lastAccessed` is below `Infinity`, so the first entry always replaces the
initial accumulator, as in the source loop). -/
def lruScan {V : Type} : List (String × Entry V) → Option (String × Nat) → Option (String × Nat)
  | [], acc => acc
  | (k, e) :: rest, none => lruScan rest (some (k, e.lastAccessed))
  | (k, e) :: rest, some (ka, ta) =>
      if e.lastAccessed < ta then lruScan rest (some (k, e.lastAccessed))
      else lruScan rest (some (ka, ta))

/-- `evictLRU()`: delete the first entry attaining the minimum
`lastAccessed`; no-op when the store is empty. -/
def ResponseCache.evictLRU {V : Type} (c : ResponseCache V) : ResponseCache V :=
  match lruScan c.cache none with
  | none => c
  | some (lruKey, _) => { c with cache := mapDelete c.cache lruKey }

/-- `set(prompt, response, model, ttl)`: evicts first when
`size >= maxSize`, then inserts/overwrites with fresh bookkeeping fields.
`respLen` stands for `JSON.stringify(response).length`. -/
def ResponseCache.set {V : Type} (c : ResponseCache V) (now : Nat) (prompt : String)
    (response : V) (respLen : Nat) (model : String) (ttl : Option Nat) :
    ResponseCache V :=
  let c1 := if c.cache.length ≥ c.maxSize then c.evictLRU else c
  let key := generateKey prompt model defaultOpts
  let expiresAt := now + ttlOr ttl c1.defaultTTL
  { c1 with
      cache := mapSet c1.cache key
        { response := response
          createdAt := now
          expiresAt := expiresAt
          lastAccessed := now
          accessCount := 0
          model := model
          promptLength := prompt.length
          responseLength := respLen }
      stats := { c1.stats with sets := c1.stats.sets + 1 } }

/-- `clear()`: drop every entry, count the clear. -/
def ResponseCache.clear {V : Type} (c : ResponseCache V) : ResponseCache V :=
  { c with cache := [], stats := { c.stats with clears := c.stats.clears + 1 } }

/-- What `getStats()` returns.  `hitRatePct` is the exact numeric value
whose `toFixed(2)` rendering the source interpolates before `%`;
`estimatedSavingsPct` likewise for the savings string. -/
structure StatsReport where
  hits : Nat
  misses : Nat
  hitRatePct : ℚ
  sets : Nat
  size : Nat
  maxSize : Nat
  totalBytes : Nat
  promptBytes : Nat
  responseBytes : Nat
  estimatedSavingsPct : Nat
  deriving Repr, DecidableEq

/-- `getStats()`. -/
def ResponseCache.getStats {V : Type} (c : ResponseCache V) : StatsReport :=
  let totalRequests := c.stats.hits + c.stats.misses
  let hitRatePct : ℚ :=
    if totalRequests > 0 then (c.stats.hits : ℚ) / (totalRequests : ℚ) * 100 else 0
  let totalPromptSize := (c.cache.map (fun q => q.2.promptLength)).sum
  let totalResponseSize := (c.cache.map (fun q => q.2.responseLength)).sum
  { hits := c.stats.hits
    misses := c.stats.misses
    hitRatePct := hitRatePct
    sets := c.stats.sets
    size := c.cache.length
    maxSize := c.maxSize
    totalBytes := totalPromptSize + totalResponseSize
    promptBytes := totalPromptSize
    responseBytes := totalResponseSize
    estimatedSavingsPct := c.stats.hits * 90 }

/-- What `getMetadata` returns (`exists` is `entryExists` here; Lean keyword).
`Math.max(0, expiresAt - now)` is truncated `Nat` subtraction. -/
structure Metadata where
  entryExists : Bool
  expiresIn : Nat
  accessCount : Nat
  age : Nat
  model : String
  promptSize : Nat
  responseSize : Nat
  deriving Repr, DecidableEq

/-- `getMetadata(prompt, model)`: pure lookup, returns the (unchanged)
state alongside the result to mirror the method-call shape. -/
def ResponseCache.getMetadata {V : Type} (c : ResponseCache V) (now : Nat)
    (prompt model : String) : Option Metadata × ResponseCache V :=
  match mapGet c.cache (generateKey prompt model defaultOpts) with
  | none => (none, c)
  | some entry =>
      (some { entryExists := true
              expiresIn := entry.expiresAt - now
              accessCount := entry.accessCount
              age := now - entry.createdAt
              model := entry.model
              promptSize := entry.promptLength
              responseSize := entry.responseLength }, c)

/-- The snapshot produced by `export()` (field `import`/`export` are Lean
keywords, hence `exportData`/`importData` below).  Each exported element is
the derived key together with every entry field (the `key, ...entry`
spread). -/
structure Snapshot (V : Type) where
  version : Nat
  exportedAt : Nat
  entries : List (String × Entry V)
  stats : StatsReport
  deriving Repr, DecidableEq

/-- `export()`: only entries with `now <= expiresAt`, no purge side effect. -/
def ResponseCache.exportData {V : Type} (c : ResponseCache V) (now : Nat) : Snapshot V :=
  { version := 1
    exportedAt := now
    entries := c.cache.filter (fun q => now ≤ q.2.expiresAt)
    stats := c.getStats }

/-- The `{imported, skipped}` result of `import`. -/
structure ImportResult where
  imported : Nat
  skipped : Nat
  deriving Repr, DecidableEq

/-- The field-by-field copy `import` performs on each snapshot entry. -/
def rebuildEntry {V : Type} (e : Entry V) : Entry V :=
  { response := e.response
    createdAt := e.createdAt
    expiresAt := e.expiresAt
    lastAccessed := e.lastAccessed
    accessCount := e.accessCount
    model := e.model
    promptLength := e.promptLength
    responseLength := e.responseLength }

/-- The `forEach` loop of `import`: threads the store and the `imported`
counter over the snapshot entries. -/
def importGo {V : Type} (now : Nat) :
    List (String × Entry V) → List (String × Entry V) → Nat →
      List (String × Entry V) × Nat
  | [], cache, imported => (cache, imported)
  | (k, e) :: rest, cache, imported =>
      if now ≤ e.expiresAt then
        importGo now rest (mapSet cache k (rebuildEntry e)) (imported + 1)
      else
        importGo now rest cache imported

/-- `import(data)`: on a version mismatch the source warns and falls off
with a bare `return`, i.e. yields `undefined` (`none` here) and touches
nothing; otherwise inserts each still-fresh entry directly into the store
(no capacity check) and returns `{imported, skipped}`. -/
def ResponseCache.importData {V : Type} (c : ResponseCache V) (now : Nat)
    (data : Snapshot V) : Option ImportResult × ResponseCache V :=
  if data.version ≠ 1 then
    (none, c)
  else
    let r := importGo now data.entries c.cache 0
    (some { imported := r.2, skipped := data.entries.length - r.2 },
     { c with cache := r.1 })

/-- One `set` call of a trace (arguments of `ResponseCache.set`). -/
structure SetOp (V : Type) where
  now : Nat
  prompt : String
  response : V
  respLen : Nat
  model : String
  ttl : Option Nat
  deriving Repr

/-- Run a sequence of `set` calls. -/
def runSets {V : Type} (c : ResponseCache V) : List (SetOp V) → ResponseCache V
  | [] => c
  | op :: rest => runSets (c.set op.now op.prompt op.response op.respLen op.model op.ttl) rest

/-- One `get` call of a trace. -/
structure GetOp where
  now : Nat
  prompt : String
  model : String
  deriving Repr, DecidableEq

/-- Run a sequence of `get` calls, discarding the returned values. -/
def runGets {V : Type} (c : ResponseCache V) : List GetOp → ResponseCache V
  | [] => c
  | op :: rest => runGets (c.get op.now op.prompt op.model).2 rest

/-- Number of gets of a trace that hit (return a value) when run from `c`. -/
def countHits {V : Type} (c : ResponseCache V) : List GetOp → Nat
  | [] => 0
  | op :: rest =>
      (if ((c.get op.now op.prompt op.model).1).isSome then 1 else 0) +
        countHits ((c.get op.now op.prompt op.model).2) rest

/-- Number of gets of a trace that miss when run from `c`. -/
def countMisses {V : Type} (c : ResponseCache V) : List GetOp → Nat
  | [] => 0
  | op :: rest =>
      (if ((c.get op.now op.prompt op.model).1).isSome then 0 else 1) +
        countMisses ((c.get op.now op.prompt op.model).2) rest

/-! ### Lemmas about the `Map` model -/

theorem mapGet_mapSet_self {α : Type} (l : List (String × α)) (k : String) (v : α) :
    mapGet (mapSet l k v) k = some v := by
  induction l with
  | nil => simp [mapSet, mapGet]
  | cons q rest ih =>
      obtain ⟨k', v'⟩ := q
      by_cases h : k' = k
      · simp [mapSet, h, mapGet]
      · simp [mapSet, h, mapGet, ih]


theorem mapGet_mapSet_ne {α : Type} (l : List (String × α)) (k k' : String) (v : α)
    (h : k' ≠ k) : mapGet (mapSet l k v) k' = mapGet l k' := by
  have hne : k ≠ k' := Ne.symm h
  induction l with
  | nil => simp [mapSet, mapGet, hne]
  | cons q rest ih =>
      obtain ⟨k0, v0⟩ := q
      by_cases h0 : k0 = k
      · subst h0
        simp [mapSet, mapGet, hne]
      · simp [mapSet, h0, mapGet, ih]

theorem length_mapSet_le {α : Type} (l : List (String × α)) (k : String) (v : α) :
    (mapSet l k v).length ≤ l.length + 1 := by
  induction l with
  | nil => simp [mapSet]
  | cons q rest ih =>
      obtain ⟨k', v'⟩ := q
      by_cases h : k' = k
      · simp [mapSet, h]
      · simp only [mapSet, if_neg h, List.length_cons]
        omega

theorem isSome_mapGet_mapSet {α : Type} (l : List (String × α)) (k k' : String) (v : α)
    (h : (mapGet l k').isSome = true) : (mapGet (mapSet l k v) k').isSome = true := by
  by_cases hk : k' = k
  · subst hk; simp [mapGet_mapSet_self]
  · rw [mapGet_mapSet_ne l k k' v hk]; exact h

theorem mapGet_mapDelete_self {α : Type} (l : List (String × α)) (k : String) :
    mapGet (mapDelete l k) k = none := by
  induction l with
  | nil => simp [mapDelete, mapGet]
  | cons q rest ih =>
      obtain ⟨k', v'⟩ := q
      by_cases h : k' = k
      · simpa [mapDelete, h] using ih
      · simpa [mapDelete, mapGet, h] using ih

theorem mapDelete_of_not_mem {α : Type} (l : List (String × α)) (k : String)
    (h : k ∉ l.map Prod.fst) : mapDelete l k = l := by
  unfold mapDelete
  rw [List.filter_eq_self]
  intro q hq
  simp only [ne_eq, decide_eq_true_eq]
  intro hqk
  exact h (List.mem_map.mpr ⟨q, hq, hqk⟩)

theorem length_mapDelete_lt {α : Type} (l : List (String × α)) (k : String)
    (h : k ∈ l.map Prod.fst) : (mapDelete l k).length < l.length := by
  induction l with
  | nil => simp at h
  | cons q rest ih =>
      obtain ⟨k', v'⟩ := q
      by_cases hk : k' = k
      · subst hk
        have h1 : (mapDelete rest k').length ≤ rest.length := List.length_filter_le _ _
        have h2 : mapDelete ((k', v') :: rest) k' = mapDelete rest k' := by
          simp [mapDelete]
        rw [h2, List.length_cons]
        omega
      · have hmem : k ∈ rest.map Prod.fst := by
          simp only [List.map_cons, List.mem_cons] at h
          rcases h with h | h
          · exact absurd h.symm hk
          · exact h
        have h2 : mapDelete ((k', v') :: rest) k = (k', v') :: mapDelete rest k := by
          simp [mapDelete, hk]
        rw [h2, List.length_cons, List.length_cons]
        exact Nat.succ_lt_succ (ih hmem)

theorem length_mapDelete_nodup {α : Type} (l : List (String × α)) (k : String) (e : α)
    (hnd : (l.map Prod.fst).Nodup) (hmem : (k, e) ∈ l) :
    (mapDelete l k).length + 1 = l.length := by
  induction l with
  | nil => simp at hmem
  | cons q rest ih =>
      obtain ⟨k', v'⟩ := q
      simp only [List.map_cons, List.nodup_cons] at hnd
      by_cases hk : k' = k
      · subst hk
        have hrest : mapDelete rest k' = rest := mapDelete_of_not_mem rest k' hnd.1
        have h2 : mapDelete ((k', v') :: rest) k' = mapDelete rest k' := by
          simp [mapDelete]
        rw [h2, hrest, List.length_cons]
      · have hmem' : (k, e) ∈ rest := by
          rcases List.mem_cons.mp hmem with h | h
          · have hfst : k = k' := by
              have := congrArg Prod.fst h
              simpa using this
            exact absurd hfst.symm hk
          · exact h
        have h2 : mapDelete ((k', v') :: rest) k = (k', v') :: mapDelete rest k := by
          simp [mapDelete, hk]
        rw [h2, List.length_cons, List.length_cons, ← ih hnd.2 hmem']

theorem mapSet_of_not_mem {α : Type} (l : List (String × α)) (k : String) (v : α)
    (h : k ∉ l.map Prod.fst) : mapSet l k v = l ++ [(k, v)] := by
  induction l with
  | nil => simp [mapSet]
  | cons q rest ih =>
      obtain ⟨k', v'⟩ := q
      simp only [List.map_cons, List.mem_cons, not_or] at h
      have hk : k' ≠ k := fun hh => h.1 hh.symm
      simp [mapSet, hk, ih h.2]

/-! ### Lemmas about `lruScan` -/

theorem lruScan_some_isSome {V : Type} (l : List (String × Entry V)) (p : String × Nat) :
    (lruScan l (some p)).isSome = true := by
  induction l generalizing p with
  | nil => simp [lruScan]
  | cons q rest ih =>
      obtain ⟨k, e⟩ := q
      obtain ⟨ka, ta⟩ := p
      by_cases hlt : e.lastAccessed < ta
      · simpa [lruScan, hlt] using ih _
      · simpa [lruScan, hlt] using ih _

theorem lruScan_ne_none {V : Type} (l : List (String × Entry V)) (h : l ≠ []) :
    (lruScan l none).isSome = true := by
  match l with
  | [] => exact absurd rfl h
  | (k, e) :: rest => simpa [lruScan] using lruScan_some_isSome rest (k, e.lastAccessed)

theorem lruScan_mem {V : Type} (l : List (String × Entry V))
    (acc : Option (String × Nat)) (k : String) (t : Nat)
    (h : lruScan l acc = some (k, t)) :
    (∃ e, (k, e) ∈ l ∧ e.lastAccessed = t) ∨ acc = some (k, t) := by
  induction l generalizing acc with
  | nil => right; simpa [lruScan] using h
  | cons q rest ih =>
      obtain ⟨k0, e0⟩ := q
      rcases acc with _ | ⟨ka, ta⟩
      · have h' : lruScan rest (some (k0, e0.lastAccessed)) = some (k, t) := by
          simpa [lruScan] using h
        rcases ih _ h' with ⟨e, he, ht⟩ | hacc
        · exact Or.inl ⟨e, List.mem_cons_of_mem _ he, ht⟩
        · have hp := Option.some.inj hacc
          have h1 : k0 = k := congrArg Prod.fst hp
          have h2 : e0.lastAccessed = t := congrArg Prod.snd hp
          refine Or.inl ⟨e0, ?_, h2⟩
          rw [← h1]
          exact List.mem_cons_self _ _
      · by_cases hlt : e0.lastAccessed < ta
        · have h' : lruScan rest (some (k0, e0.lastAccessed)) = some (k, t) := by
            simpa [lruScan, hlt] using h
          rcases ih _ h' with ⟨e, he, ht⟩ | hacc
          · exact Or.inl ⟨e, List.mem_cons_of_mem _ he, ht⟩
          · have hp := Option.some.inj hacc
            have h1 : k0 = k := congrArg Prod.fst hp
            have h2 : e0.lastAccessed = t := congrArg Prod.snd hp
            subst h1
            exact Or.inl ⟨e0, List.mem_cons_self _ _, h2⟩
        · have h' : lruScan rest (some (ka, ta)) = some (k, t) := by
            simpa [lruScan, hlt] using h
          rcases ih _ h' with ⟨e, he, ht⟩ | hacc
          · exact Or.inl ⟨e, List.mem_cons_of_mem _ he, ht⟩
          · exact Or.inr hacc

theorem lruScan_min {V : Type} (l : List (String × Entry V))
    (acc : Option (String × Nat)) (k : String) (t : Nat)
    (h : lruScan l acc = some (k, t)) :
    (∀ q ∈ l, t ≤ q.2.lastAccessed) ∧ (∀ ka ta, acc = some (ka, ta) → t ≤ ta) := by
  induction l generalizing acc with
  | nil =>
      refine ⟨by simp, ?_⟩
      intro ka ta hacc
      have h' : acc = some (k, t) := by simpa [lruScan] using h
      rw [hacc] at h'
      have h2 : ta = t := congrArg Prod.snd (Option.some.inj h')
      omega
  | cons q rest ih =>
      obtain ⟨k0, e0⟩ := q
      rcases acc with _ | ⟨ka, ta⟩
      · have h' : lruScan rest (some (k0, e0.lastAccessed)) = some (k, t) := by
          simpa [lruScan] using h
        have hrec := ih _ h'
        have hle : t ≤ e0.lastAccessed := hrec.2 k0 e0.lastAccessed rfl
        refine ⟨?_, by simp⟩
        intro q hq
        rcases List.mem_cons.mp hq with rfl | hq
        · exact hle
        · exact hrec.1 q hq
      · by_cases hlt : e0.lastAccessed < ta
        · have h' : lruScan rest (some (k0, e0.lastAccessed)) = some (k, t) := by
            simpa [lruScan, hlt] using h
          have hrec := ih _ h'
          have hle : t ≤ e0.lastAccessed := hrec.2 k0 e0.lastAccessed rfl
          refine ⟨?_, ?_⟩
          · intro q hq
            rcases List.mem_cons.mp hq with rfl | hq
            · exact hle
            · exact hrec.1 q hq
          · intro ka' ta' hacc
            have h2 : ta = ta' := congrArg Prod.snd (Option.some.inj hacc)
            omega
        · have h' : lruScan rest (some (ka, ta)) = some (k, t) := by
            simpa [lruScan, hlt] using h
          have hrec := ih _ h'
          have hle : t ≤ ta := hrec.2 ka ta rfl
          refine ⟨?_, ?_⟩
          · intro q hq
            rcases List.mem_cons.mp hq with rfl | hq
            · show t ≤ e0.lastAccessed
              omega
            · exact hrec.1 q hq
          · intro ka' ta' hacc
            have h2 : ta = ta' := congrArg Prod.snd (Option.some.inj hacc)
            omega

/-! ### Truncated base64 depends only on the first 48 input bytes -/

theorem base64Chunks_take (n : Nat) : ∀ (l : List Nat), 3 * n ≤ l.length →
    (base64Chunks l).take (4 * n) = base64Chunks (l.take (3 * n)) := by
  induction n with
  | zero => intro l h; simp [base64Chunks]
  | succ m ih =>
      intro l h
      match l with
      | [] => simp at h
      | [a] => simp at h; omega
      | [a, b] => simp at h; omega
      | a :: b :: c :: rest =>
          have h' : 3 * m ≤ rest.length := by
            simp only [List.length_cons] at h
            omega
          rw [show 4 * (m + 1) = 4 * m + 1 + 1 + 1 + 1 by ring,
            show 3 * (m + 1) = 3 * m + 1 + 1 + 1 by ring]
          simp only [base64Chunks, List.take_succ_cons]
          rw [ih rest h']

theorem generateKey_eq_of_take48 (p1 m1 o1 p2 m2 o2 : String)
    (h : (strBytes (m1 ++ ":" ++ p1 ++ ":" ++ o1)).take 48 =
         (strBytes (m2 ++ ":" ++ p2 ++ ":" ++ o2)).take 48) :
    generateKey p1 m1 o1 = generateKey p2 m2 o2 := by
  unfold generateKey
  set s1 := strBytes (m1 ++ ":" ++ p1 ++ ":" ++ o1) with hs1
  set s2 := strBytes (m2 ++ ":" ++ p2 ++ ":" ++ o2) with hs2
  by_cases h1 : 48 ≤ s1.length
  · have hlen : (s1.take 48).length = 48 := by
      rw [List.length_take]
      omega
    have h2 : 48 ≤ s2.length := by
      have := congrArg List.length h
      rw [hlen, List.length_take] at this
      omega
    have e1 := base64Chunks_take 16 s1 (by omega)
    have e2 := base64Chunks_take 16 s2 (by omega)
    norm_num at e1 e2
    rw [show (64 : Nat) = 4 * 16 by norm_num, e1, e2, h]
  · have hl1 : s1.take 48 = s1 := List.take_of_length_le (by omega)
    have h2 : s2.length < 48 := by
      have := congrArg List.length h
      rw [List.length_take, List.length_take] at this
      omega
    have hl2 : s2.take 48 = s2 := List.take_of_length_le (by omega)
    rw [hl1, hl2] at h
    rw [h]

/-! ### `import` loop lemmas -/

theorem rebuildEntry_eq {V : Type} (e : Entry V) : rebuildEntry e = e := rfl

theorem importGo_all_fresh {V : Type} (now : Nat) :
    ∀ (entries acc : List (String × Entry V)) (i : Nat),
      (∀ q ∈ entries, now ≤ q.2.expiresAt) →
      (entries.map Prod.fst).Nodup →
      (∀ k, k ∈ entries.map Prod.fst → k ∉ acc.map Prod.fst) →
      importGo now entries acc i = (acc ++ entries, i + entries.length) := by
  intro entries
  induction entries with
  | nil => intro acc i _ _ _; simp [importGo]
  | cons q rest ih =>
      intro acc i hfresh hnd hdisj
      obtain ⟨k, e⟩ := q
      have hf : now ≤ e.expiresAt := hfresh (k, e) (List.mem_cons_self _ _)
      simp only [importGo, if_pos hf]
      have hknotacc : k ∉ acc.map Prod.fst := hdisj k (by simp)
      rw [rebuildEntry_eq, mapSet_of_not_mem acc k e hknotacc]
      simp only [List.map_cons, List.nodup_cons] at hnd
      have hrec := ih (acc ++ [(k, e)]) (i + 1)
        (fun q hq => hfresh q (List.mem_cons_of_mem _ hq)) hnd.2 ?_
      · rw [hrec, List.append_assoc]
        simp only [List.singleton_append, List.length_cons]
        have harith : i + 1 + rest.length = i + (rest.length + 1) := by omega
        rw [harith]
      · intro k' hk'
        simp only [List.map_append, List.mem_append, List.map_cons, List.map_nil,
          List.mem_singleton, not_or]
        refine ⟨hdisj k' (List.mem_cons_of_mem _ hk'), ?_⟩
        intro hkk
        subst hkk
        exact hnd.1 hk'

theorem importGo_mapGet_not_mem {V : Type} (now : Nat) :
    ∀ (entries acc : List (String × Entry V)) (i : Nat) (k : String),
      k ∉ entries.map Prod.fst →
      mapGet (importGo now entries acc i).1 k = mapGet acc k := by
  intro entries
  induction entries with
  | nil => intro acc i k _; simp [importGo]
  | cons q rest ih =>
      intro acc i k hk
      obtain ⟨k0, e0⟩ := q
      simp only [List.map_cons, List.mem_cons, not_or] at hk
      by_cases hf : now ≤ e0.expiresAt
      · simp only [importGo, if_pos hf]
        rw [ih _ _ _ hk.2, mapGet_mapSet_ne _ _ _ _ (Ne.symm (Ne.symm hk.1))]
      · simp only [importGo, if_neg hf]
        exact ih _ _ _ hk.2

theorem importGo_isSome {V : Type} (now : Nat) :
    ∀ (entries acc : List (String × Entry V)) (i : Nat) (k : String),
      (mapGet acc k).isSome = true →
      (mapGet (importGo now entries acc i).1 k).isSome = true := by
  intro entries
  induction entries with
  | nil => intro acc i k h; simpa [importGo] using h
  | cons q rest ih =>
      intro acc i k h
      obtain ⟨k0, e0⟩ := q
      by_cases hf : now ≤ e0.expiresAt
      · simp only [importGo, if_pos hf]
        exact ih _ _ _ (isSome_mapGet_mapSet _ _ _ _ h)
      · simp only [importGo, if_neg hf]
        exact ih _ _ _ h

/-! ### `get` statistics stepping -/

theorem get_stats_step {V : Type} (c : ResponseCache V) (now : Nat) (p m : String) :
    ((c.get now p m).2).stats.hits =
      c.stats.hits + (if ((c.get now p m).1).isSome then 1 else 0) ∧
    ((c.get now p m).2).stats.misses =
      c.stats.misses + (if ((c.get now p m).1).isSome then 0 else 1) := by
  unfold ResponseCache.get
  cases hget : mapGet c.cache (generateKey p m defaultOpts) with
  | none => simp [hget]
  | some entry =>
      by_cases hexp : now > entry.expiresAt
      · simp [hget, hexp]
      · simp [hget, hexp]

theorem runGets_stats {V : Type} : ∀ (ops : List GetOp) (c : ResponseCache V),
    (runGets c ops).stats.hits = c.stats.hits + countHits c ops ∧
    (runGets c ops).stats.misses = c.stats.misses + countMisses c ops := by
  intro ops
  induction ops with
  | nil => intro c; simp [runGets, countHits, countMisses]
  | cons op rest ih =>
      intro c
      have hstep := get_stats_step c op.now op.prompt op.model
      have hrec := ih ((c.get op.now op.prompt op.model).2)
      simp only [runGets, countHits, countMisses]
      constructor
      · rw [hrec.1, hstep.1]
        omega
      · rw [hrec.2, hstep.2]
        omega

/-! ### Size bookkeeping for `set` -/

theorem evictLRU_fields {V : Type} (c : ResponseCache V) :
    c.evictLRU.maxSize = c.maxSize ∧ c.evictLRU.defaultTTL = c.defaultTTL ∧
      c.evictLRU.stats = c.stats := by
  unfold ResponseCache.evictLRU
  cases lruScan c.cache none with
  | none => exact ⟨rfl, rfl, rfl⟩
  | some p => obtain ⟨k, t⟩ := p; exact ⟨rfl, rfl, rfl⟩

theorem evictLRU_length_lt {V : Type} (c : ResponseCache V) (h : c.cache ≠ []) :
    c.evictLRU.cache.length < c.cache.length := by
  have hsome := lruScan_ne_none c.cache h
  cases hscan : lruScan c.cache none with
  | none => rw [hscan] at hsome; simp at hsome
  | some p =>
      obtain ⟨k, t⟩ := p
      rcases lruScan_mem c.cache none k t hscan with ⟨e, hmem, _⟩ | habs
      · have hk : k ∈ c.cache.map Prod.fst := List.mem_map.mpr ⟨(k, e), hmem, rfl⟩
        unfold ResponseCache.evictLRU
        rw [hscan]
        exact length_mapDelete_lt c.cache k hk
      · simp at habs

theorem set_fields {V : Type} (c : ResponseCache V) (now : Nat) (p : String) (v : V)
    (len : Nat) (m : String) (ttl : Option Nat) :
    (c.set now p v len m ttl).maxSize = c.maxSize := by
  unfold ResponseCache.set
  by_cases hfull : c.cache.length ≥ c.maxSize
  · simp only [if_pos hfull]
    exact (evictLRU_fields c).1
  · simp only [if_neg hfull]

theorem set_length_le {V : Type} (c : ResponseCache V) (now : Nat) (p : String) (v : V)
    (len : Nat) (m : String) (ttl : Option Nat) (hcap : 1 ≤ c.maxSize)
    (hinv : c.cache.length ≤ c.maxSize) :
    (c.set now p v len m ttl).cache.length ≤ c.maxSize := by
  simp only [ResponseCache.set]
  by_cases hfull : c.cache.length ≥ c.maxSize
  · simp only [if_pos hfull]
    have hne : c.cache ≠ [] := by
      intro hnil
      rw [hnil] at hfull
      simp at hfull
      omega
    have h1 := evictLRU_length_lt c hne
    have h2 := length_mapSet_le c.evictLRU.cache (generateKey p m defaultOpts)
      { response := v, createdAt := now,
        expiresAt := now + ttlOr ttl c.evictLRU.defaultTTL, lastAccessed := now,
        accessCount := 0, model := m, promptLength := p.length, responseLength := len }
    omega
  · simp only [if_neg hfull]
    have h2 := length_mapSet_le c.cache (generateKey p m defaultOpts)
      { response := v, createdAt := now, expiresAt := now + ttlOr ttl c.defaultTTL,
        lastAccessed := now, accessCount := 0, model := m, promptLength := p.length,
        responseLength := len }
    omega

theorem runSets_length_le {V : Type} : ∀ (ops : List (SetOp V)) (c : ResponseCache V),
    1 ≤ c.maxSize → c.cache.length ≤ c.maxSize →
    (runSets c ops).cache.length ≤ c.maxSize ∧ (runSets c ops).maxSize = c.maxSize := by
  intro ops
  induction ops with
  | nil => intro c _ hinv; exact ⟨hinv, rfl⟩
  | cons op rest ih =>
      intro c hcap hinv
      have hstep := set_length_le c op.now op.prompt op.response op.respLen op.model op.ttl
        hcap hinv
      have hmax := set_fields c op.now op.prompt op.response op.respLen op.model op.ttl
      have hrec := ih (c.set op.now op.prompt op.response op.respLen op.model op.ttl)
        (hmax ▸ hcap) (hmax ▸ hstep)
      simp only [runSets]
      rw [hmax] at hrec
      exact hrec

/-! ### Helper: the value returned by `get` depends only on the store -/

theorem get_fst_eq_of_cache_eq {V : Type} (c1 c2 : ResponseCache V) (now : Nat)
    (p m : String) (h : c1.cache = c2.cache) :
    (c1.get now p m).1 = (c2.get now p m).1 := by
  unfold ResponseCache.get
  rw [h]
  cases hm2 : mapGet c2.cache (generateKey p m defaultOpts) with
  | none => simp [hm2]
  | some e =>
      by_cases hx : now > e.expiresAt
      · simp [hm2, hx]
      · simp [hm2, hx]

/-! ### The claims -/

/-- C1: for every non-empty store (with the `Map` invariant of pairwise
distinct keys), `evictLRU` removes exactly one entry, one whose
`lastAccessed` timestamp is minimal among all resident entries; on an empty
store it removes nothing. -/
theorem C1_evictLRU_removes_one_minimal {V : Type} (c : ResponseCache V)
    (hnd : (c.cache.map Prod.fst).Nodup) :
    (c.cache = [] → c.evictLRU = c) ∧
    (c.cache ≠ [] → ∃ k e, (k, e) ∈ c.cache ∧
      (∀ q ∈ c.cache, e.lastAccessed ≤ q.2.lastAccessed) ∧
      c.evictLRU.cache = mapDelete c.cache k ∧
      c.evictLRU.cache.length + 1 = c.cache.length) := by
  constructor
  · intro h
    unfold ResponseCache.evictLRU
    rw [h]
    rfl
  · intro h
    have hsome := lruScan_ne_none c.cache h
    cases hscan : lruScan c.cache none with
    | none => rw [hscan] at hsome; simp at hsome
    | some pr =>
        obtain ⟨k, t⟩ := pr
        rcases lruScan_mem c.cache none k t hscan with ⟨e, hmem, ht⟩ | habs
        · refine ⟨k, e, hmem, ?_, ?_, ?_⟩
          · intro q hq
            have hmin := (lruScan_min c.cache none k t hscan).1 q hq
            omega
          · unfold ResponseCache.evictLRU
            rw [hscan]
          · have hdel : c.evictLRU.cache = mapDelete c.cache k := by
              unfold ResponseCache.evictLRU
              rw [hscan]
            rw [hdel]
            exact length_mapDelete_nodup c.cache k e hnd hmem
        · simp at habs

/-- C1 witness at a concrete two-entry store. -/
theorem C1_evictLRU_witness :
    ((⟨[("a", ⟨1, 0, 100, 5, 0, "m", 1, 1⟩), ("b", ⟨2, 0, 100, 3, 0, "m", 1, 1⟩)],
        ⟨0, 0, 2, 0⟩, 1000, 10, 5000⟩ :
      ResponseCache Nat)).evictLRU.cache.length + 1 = 2 := by
  obtain ⟨k, e, _, _, _, hlen⟩ :=
    (C1_evictLRU_removes_one_minimal
      ((⟨[("a", ⟨1, 0, 100, 5, 0, "m", 1, 1⟩), ("b", ⟨2, 0, 100, 3, 0, "m", 1, 1⟩)],
          ⟨0, 0, 2, 0⟩, 1000, 10, 5000⟩ :
        ResponseCache Nat)) (by decide)).2 (by decide)
  exact hlen

/-- C2: from a freshly constructed cache with capacity at least 1, after
any prefix of a sequence of `set` calls whose derived keys are pairwise
distinct, the store size stays within `maxSize`; and `set` is definitionally
evict-then-insert (the capacity check and eviction happen before the
insertion, never after). -/
theorem C2_capacity_invariant {V : Type} (ops : List (SetOp V)) (i : Nat)
    (o1 o2 o3 : Option Nat) (c : ResponseCache V) (now : Nat) (p : String) (v : V)
    (len : Nat) (m : String) (ttl : Option Nat)
    (hcap : 1 ≤ (mkResponseCache (V := V) o1 o2 o3).maxSize)
    (hdist : (ops.map (fun op => generateKey op.prompt op.model defaultOpts)).Nodup) :
    (runSets (mkResponseCache o1 o2 o3) (ops.take i)).cache.length ≤
      (mkResponseCache (V := V) o1 o2 o3).maxSize ∧
    (c.set now p v len m ttl).cache =
      mapSet (if c.cache.length ≥ c.maxSize then c.evictLRU else c).cache
        (generateKey p m defaultOpts)
        { response := v, createdAt := now,
          expiresAt := now +
            ttlOr ttl (if c.cache.length ≥ c.maxSize then c.evictLRU else c).defaultTTL,
          lastAccessed := now, accessCount := 0, model := m,
          promptLength := p.length, responseLength := len } := by
  constructor
  · exact (runSets_length_le (ops.take i) (mkResponseCache o1 o2 o3) hcap (by simp [mkResponseCache])).1
  · rfl

/-- C2 witness: two distinct-key sets into a capacity-2 cache. -/
theorem C2_capacity_witness :
    (runSets (mkResponseCache none (some 2) none : ResponseCache Nat)
      ([{ now := 0, prompt := "A", response := 1, respLen := 1, model := "m", ttl := none },
        { now := 1, prompt := "B", response := 2, respLen := 1, model := "m", ttl := none }].take 2)).cache.length ≤
      (mkResponseCache (V := Nat) none (some 2) none).maxSize :=
  (C2_capacity_invariant
    [{ now := 0, prompt := "A", response := 1, respLen := 1, model := "m", ttl := none },
     { now := 1, prompt := "B", response := 2, respLen := 1, model := "m", ttl := none }]
    2 none (some 2) none (mkResponseCache none (some 2) none) 0 "A" 1 1 "m" none
    (by decide) (by decide)).1

/-- C3 counterexample: with `ttl = 10` and insertion at time `0`, a `get`
at the boundary instant `now = createdAt + ttl = 10` returns the stored
value (the source tests `now > expiresAt`, so the boundary is a hit),
whereas the claim demands absence at `now ≥ createdAt + T`. -/
theorem C3_boundary_counterexample :
    ((((mkResponseCache none none none : ResponseCache Nat).set 0 "p" 42 2 "m"
        (some 10)).get 10 "p" "m").1) = some 42 := by
  decide

/-- C3 amended: an entry inserted at `now0` with `ttl = T > 0` is
retrievable at every `now ≤ now0 + T` and is absent at every
`now > now0 + T` (the boundary instant counts as fresh, not expired); on
the expired side the entry is deleted and a miss is recorded. -/
theorem C3_ttl_boundary_amended {V : Type} (c : ResponseCache V) (now0 now : Nat)
    (p m : String) (v : V) (len T : Nat) (hT : 0 < T) :
    (now ≤ now0 + T → ((c.set now0 p v len m (some T)).get now p m).1 = some v) ∧
    (now0 + T < now →
      ((c.set now0 p v len m (some T)).get now p m).1 = none ∧
      mapGet (((c.set now0 p v len m (some T)).get now p m).2).cache
        (generateKey p m defaultOpts) = none ∧
      (((c.set now0 p v len m (some T)).get now p m).2).stats.misses =
        (c.set now0 p v len m (some T)).stats.misses + 1) := by
  have hT' : ∀ d, ttlOr (some T) d = T := by
    intro d
    show (if T = 0 then d else T) = T
    rw [if_neg (by omega)]
  have hkey : mapGet (c.set now0 p v len m (some T)).cache
      (generateKey p m defaultOpts) =
      some { response := v, createdAt := now0, expiresAt := now0 + T,
             lastAccessed := now0, accessCount := 0, model := m,
             promptLength := p.length, responseLength := len } := by
    simp only [ResponseCache.set]
    rw [hT']
    exact mapGet_mapSet_self _ _ _
  constructor
  · intro hle
    simp only [ResponseCache.get, hkey]
    rw [if_neg (by omega : ¬ now0 + T < now)]
  · intro hgt
    simp only [ResponseCache.get, hkey]
    rw [if_pos (by omega : now0 + T < now)]
    exact ⟨rfl, mapGet_mapDelete_self _ _, rfl⟩

/-- C3 witness: fresh side of the amended boundary at concrete inputs. -/
theorem C3_ttl_boundary_witness :
    (((mkResponseCache none none none : ResponseCache Nat).set 0 "p" 7 1 "m"
        (some 5)).get 5 "p" "m").1 = some 7 :=
  (C3_ttl_boundary_amended (mkResponseCache none none none) 0 5 "p" "m" 7 1 5
    (by decide)).1 (by decide)

/-- C4 counterexample: capacity 2; `set A`, `set B`, `get A` (so `B` is
LRU), then `set A` again — the key `A` is already resident and the store
does not grow, yet the unrelated entry `B` is evicted, because `set`
checks `size >= maxSize` unconditionally. -/
theorem C4_overwrite_counterexample :
    (mapGet
      (((((mkResponseCache none (some 2) none : ResponseCache Nat).set 0 "A" 1 1 "m"
          none).set 1 "B" 2 1 "m" none).get 2 "A" "m").2).cache
      (generateKey "B" "m" defaultOpts)).isSome = true ∧
    mapGet
      ((((((mkResponseCache none (some 2) none : ResponseCache Nat).set 0 "A" 1 1 "m"
          none).set 1 "B" 2 1 "m" none).get 2 "A" "m").2).set 3 "A" 9 1 "m"
          none).cache (generateKey "B" "m" defaultOpts) = none := by
  decide

/-- C4 amended: `set` triggers LRU eviction whenever
`size(store) ≥ capacity`, even when the derived key is already resident
(overwriting never grows the store, yet the LRU entry — possibly an
unrelated key — is removed). -/
theorem C4_overwrite_evicts_amended {V : Type} (c : ResponseCache V) (now : Nat)
    (p : String) (v : V) (len : Nat) (m : String) (ttl : Option Nat)
    (k0 : String) (t : Nat)
    (hfull : c.cache.length ≥ c.maxSize)
    (hres : (mapGet c.cache (generateKey p m defaultOpts)).isSome = true)
    (hlru : lruScan c.cache none = some (k0, t))
    (hne : k0 ≠ generateKey p m defaultOpts) :
    mapGet (c.set now p v len m ttl).cache k0 = none := by
  simp only [ResponseCache.set, if_pos hfull]
  rw [mapGet_mapSet_ne _ _ _ _ hne]
  unfold ResponseCache.evictLRU
  rw [hlru]
  exact mapGet_mapDelete_self _ _

/-- C4 witness: the amended statement at the concrete C4 trace. -/
theorem C4_overwrite_evicts_witness :
    mapGet
      ((((((mkResponseCache none (some 2) none : ResponseCache Nat).set 0 "A" 1 1 "m"
          none).set 1 "B" 2 1 "m" none).get 2 "A" "m").2).set 3 "A" 9 1 "m"
          none).cache (generateKey "B" "m" defaultOpts) = none :=
  C4_overwrite_evicts_amended
    ((((mkResponseCache none (some 2) none : ResponseCache Nat).set 0 "A" 1 1 "m"
        none).set 1 "B" 2 1 "m" none).get 2 "A" "m").2
    3 "A" 9 1 "m" none (generateKey "B" "m" defaultOpts) 1
    (by decide) (by decide) (by decide) (by decide)

/-- C5: on a cache with no expired resident entry (and the `Map` invariant
of distinct keys), `import(export())` into a freshly constructed second
instance yields identical `get` results (value component) for every
`(prompt, model)`, and the reported `imported` count equals the number of
entries in the export (all of which are fresh). -/
theorem C5_export_import_roundtrip {V : Type} (c : ResponseCache V) (now : Nat)
    (o1 o2 o3 : Option Nat) (p m : String)
    (hfresh : ∀ q ∈ c.cache, now ≤ q.2.expiresAt)
    (hnd : (c.cache.map Prod.fst).Nodup) :
    ((((mkResponseCache o1 o2 o3 : ResponseCache V).importData now
        (c.exportData now)).2).get now p m).1 = (c.get now p m).1 ∧
    ((mkResponseCache o1 o2 o3 : ResponseCache V).importData now
        (c.exportData now)).1 =
      some { imported := (c.exportData now).entries.length, skipped := 0 } := by
  have hentries : (c.exportData now).entries = c.cache := by
    simp only [ResponseCache.exportData]
    rw [List.filter_eq_self]
    intro q hq
    simpa using hfresh q hq
  have hgo : importGo now (c.exportData now).entries
      (mkResponseCache (V := V) o1 o2 o3).cache 0 =
      ((mkResponseCache (V := V) o1 o2 o3).cache ++ (c.exportData now).entries,
        0 + (c.exportData now).entries.length) := by
    apply importGo_all_fresh
    · intro q hq
      rw [hentries] at hq
      exact hfresh q hq
    · rw [hentries]
      exact hnd
    · intro k _ hk
      simpa [mkResponseCache] using hk
  have himp : (mkResponseCache o1 o2 o3 : ResponseCache V).importData now
      (c.exportData now) =
      (some { imported := (c.exportData now).entries.length, skipped := 0 },
       { mkResponseCache (V := V) o1 o2 o3 with cache := c.cache }) := by
    have hv : ¬ ((c.exportData now).version ≠ 1) := by
      simp [ResponseCache.exportData]
    simp only [ResponseCache.importData]
    rw [if_neg hv, hgo]
    simp [mkResponseCache, hentries]
  rw [himp]
  refine ⟨?_, rfl⟩
  exact get_fst_eq_of_cache_eq _ c now p m rfl

/-- C5 witness at a one-entry fresh cache. -/
theorem C5_export_import_witness :
    ((((mkResponseCache none none none : ResponseCache Nat).importData 0
        ((⟨[("a", ⟨1, 0, 100, 0, 0, "m", 1, 1⟩)], ⟨0, 0, 1, 0⟩, 1000, 10, 5000⟩ :
          ResponseCache Nat).exportData 0)).2).get 0 "p" "m").1 =
      (((⟨[("a", ⟨1, 0, 100, 0, 0, "m", 1, 1⟩)], ⟨0, 0, 1, 0⟩, 1000, 10, 5000⟩ :
          ResponseCache Nat)).get 0 "p" "m").1 :=
  (C5_export_import_roundtrip
    ((⟨[("a", ⟨1, 0, 100, 0, 0, "m", 1, 1⟩)], ⟨0, 0, 1, 0⟩, 1000, 10, 5000⟩ :
      ResponseCache Nat)) 0 none none none "p" "m" (by decide) (by decide)).1

/-- C6 counterexample: on a snapshot with `version = 2` holding one entry,
`import` returns no structured result at all (the source's bare `return`
yields `undefined`), not the claimed `imported = 0, skipped = total`. -/
theorem C6_version_mismatch_counterexample :
    ((mkResponseCache none none none : ResponseCache Nat).importData 0
        ⟨2, 0, [("k", ⟨1, 0, 100, 0, 0, "m", 1, 1⟩)],
          (mkResponseCache none none none : ResponseCache Nat).getStats⟩).1 ≠
      some { imported := 0, skipped := 1 } ∧
    ((mkResponseCache none none none : ResponseCache Nat).importData 0
        ⟨2, 0, [("k", ⟨1, 0, 100, 0, 0, "m", 1, 1⟩)],
          (mkResponseCache none none none : ResponseCache Nat).getStats⟩).1 = none := by
  constructor
  · decide
  · decide

/-- C6 amended: on a snapshot whose version differs from 1, `import`
returns no structured result (`undefined` in the source, after a console
warning) rather than `(imported = 0, skipped = total)`; it does not throw
and it leaves the cache state (store and statistics) completely
unchanged. -/
theorem C6_version_mismatch_amended {V : Type} (c : ResponseCache V) (now : Nat)
    (data : Snapshot V) (hv : data.version ≠ 1) :
    c.importData now data = (none, c) := by
  simp only [ResponseCache.importData, if_pos hv]

/-- C6 witness at a concrete version-2 snapshot. -/
theorem C6_version_mismatch_witness :
    (mkResponseCache none none none : ResponseCache Nat).importData 0
        ⟨2, 0, [], (mkResponseCache none none none : ResponseCache Nat).getStats⟩ =
      (none, mkResponseCache none none none) :=
  C6_version_mismatch_amended (mkResponseCache none none none) 0
    ⟨2, 0, [], (mkResponseCache none none none : ResponseCache Nat).getStats⟩
    (by decide)

/-- C7 counterexample: two distinct prompts that agree on their first 38
characters produce the same key under the default model and options — the
base64 output is truncated to 64 characters, i.e. to the first 48 bytes of
`model:prompt:options`. -/
theorem C7_collision_counterexample :
    String.mk (List.replicate 38 'a') ≠ String.mk (List.replicate 38 'a') ++ "b" ∧
    generateKey (String.mk (List.replicate 38 'a')) "haiku-4-5" defaultOpts =
      generateKey (String.mk (List.replicate 38 'a') ++ "b") "haiku-4-5"
        defaultOpts := by
  constructor
  · decide
  · decide

/-- C7 amended: the key is a pure deterministic function of
`(prompt, model, options)` (identical inputs give identical keys, in any
instance — `generateKey` reads no instance state), but distinct prompts
are only distinguished within the first 48 bytes of
`model:prompt:options`: whenever the 48-byte prefixes coincide, the keys
coincide, so prompts sharing a long prefix may collide. -/
theorem C7_key_determinism_amended (p m o p1 m1 o1 p2 m2 o2 : String)
    (h : (strBytes (m1 ++ ":" ++ p1 ++ ":" ++ o1)).take 48 =
         (strBytes (m2 ++ ":" ++ p2 ++ ":" ++ o2)).take 48) :
    generateKey p m o = generateKey p m o ∧
    generateKey p1 m1 o1 = generateKey p2 m2 o2 :=
  ⟨rfl, generateKey_eq_of_take48 p1 m1 o1 p2 m2 o2 h⟩

/-- C7 witness: determinism and a prefix-forced key equality at concrete
strings. -/
theorem C7_key_determinism_witness :
    generateKey "q" "m" defaultOpts = generateKey "q" "m" defaultOpts ∧
    generateKey (String.mk (List.replicate 38 'a')) "haiku-4-5" defaultOpts =
      generateKey (String.mk (List.replicate 38 'a') ++ "b") "haiku-4-5"
        defaultOpts :=
  C7_key_determinism_amended "q" "m" defaultOpts
    (String.mk (List.replicate 38 'a')) "haiku-4-5" defaultOpts
    (String.mk (List.replicate 38 'a') ++ "b") "haiku-4-5" defaultOpts
    (by decide)

/-- C8 counterexample: a cache preloaded via `import` (which touches no
counter), then one hit-producing and one miss-producing `get`: `getStats`
reports `hits = 1`, `misses = 1`, but its hit-rate value is `50` (the
percentage the source formats), not the claimed ratio `1 / 2`. -/
theorem C8_hitRate_counterexample :
    ((((((mkResponseCache none none none : ResponseCache Nat).importData 0
        ⟨1, 0, [(generateKey "p" "m" defaultOpts, ⟨42, 0, 100, 0, 0, "m", 1, 2⟩)],
          (mkResponseCache none none none : ResponseCache Nat).getStats⟩).2).get 1
        "p" "m").2).get 2 "q" "m").2.getStats.hits = 1 ∧
    ((((((mkResponseCache none none none : ResponseCache Nat).importData 0
        ⟨1, 0, [(generateKey "p" "m" defaultOpts, ⟨42, 0, 100, 0, 0, "m", 1, 2⟩)],
          (mkResponseCache none none none : ResponseCache Nat).getStats⟩).2).get 1
        "p" "m").2).get 2 "q" "m").2.getStats.misses = 1 ∧
    ((((((mkResponseCache none none none : ResponseCache Nat).importData 0
        ⟨1, 0, [(generateKey "p" "m" defaultOpts, ⟨42, 0, 100, 0, 0, "m", 1, 2⟩)],
          (mkResponseCache none none none : ResponseCache Nat).getStats⟩).2).get 1
        "p" "m").2).get 2 "q" "m").2.getStats.hitRatePct ≠ (1 : ℚ) / 2 := by
  refine ⟨by decide, by decide, ?_⟩
  have hh : ((((((mkResponseCache none none none : ResponseCache Nat).importData 0
      ⟨1, 0, [(generateKey "p" "m" defaultOpts, ⟨42, 0, 100, 0, 0, "m", 1, 2⟩)],
        (mkResponseCache none none none : ResponseCache Nat).getStats⟩).2).get 1
      "p" "m").2).get 2 "q" "m").2.stats.hits = 1 := by decide
  have hm : ((((((mkResponseCache none none none : ResponseCache Nat).importData 0
      ⟨1, 0, [(generateKey "p" "m" defaultOpts, ⟨42, 0, 100, 0, 0, "m", 1, 2⟩)],
        (mkResponseCache none none none : ResponseCache Nat).getStats⟩).2).get 1
      "p" "m").2).get 2 "q" "m").2.stats.misses = 1 := by decide
  rw [(show ∀ (c : ResponseCache Nat), c.getStats.hitRatePct =
      (if 0 < c.stats.hits + c.stats.misses then
        ((c.stats.hits : ℚ) / ((c.stats.hits + c.stats.misses : Nat) : ℚ)) * 100
      else 0) from fun c => rfl), hh, hm]
  norm_num

/-- C8 amended: after an execution of gets (no other statistics-affecting
operation) from a cache whose hit/miss counters are zero, `getStats`
reports `hits = h` and `misses = m` where `h` and `m` count the
hit-producing and miss-producing gets of the trace, and its hit-rate is the
*percentage* `h / (h + m) * 100` (formatted by `toFixed(2)` with a `%`
sign in the source), and `0` when `h + m = 0`. -/
theorem C8_statistics_amended {V : Type} (c : ResponseCache V) (ops : List GetOp)
    (h0 : c.stats.hits = 0) (m0 : c.stats.misses = 0) :
    (runGets c ops).getStats.hits = countHits c ops ∧
    (runGets c ops).getStats.misses = countMisses c ops ∧
    (runGets c ops).getStats.hitRatePct =
      (if 0 < countHits c ops + countMisses c ops then
        ((countHits c ops : ℚ) / ((countHits c ops + countMisses c ops : Nat) : ℚ)) * 100
      else 0) := by
  have hs := runGets_stats ops c
  have hh : (runGets c ops).stats.hits = countHits c ops := by
    rw [hs.1, h0, Nat.zero_add]
  have hm : (runGets c ops).stats.misses = countMisses c ops := by
    rw [hs.2, m0, Nat.zero_add]
  refine ⟨?_, ?_, ?_⟩
  · simp only [ResponseCache.getStats]
    exact hh
  · simp only [ResponseCache.getStats]
    exact hm
  · simp only [ResponseCache.getStats, hh, hm]

/-- C8 witness: a single miss-producing get from a fresh cache. -/
theorem C8_statistics_witness :
    (runGets (mkResponseCache none none none : ResponseCache Nat)
        [⟨0, "q", "m"⟩]).getStats.hits =
      countHits (mkResponseCache none none none : ResponseCache Nat) [⟨0, "q", "m"⟩] :=
  (C8_statistics_amended (mkResponseCache none none none) [⟨0, "q", "m"⟩]
    (by decide) (by decide)).1

/-- C9 counterexample: an entry inserted at time 0 with `ttl = 10` is
expired at `now = 100`, yet `getMetadata` still returns a metadata object
(the source never checks `expiresAt`), whereas the claim demands absence
for an expired resident entry. -/
theorem C9_expired_metadata_counterexample :
    ((((mkResponseCache none none none : ResponseCache Nat).set 0 "p" 42 2 "m"
        (some 10)).getMetadata 100 "p" "m").1).isSome = true := by
  decide

/-- C9 amended: `getMetadata` is a pure peek — it never mutates the store
(so `lastAccessedAt`, `accessCount`, the hit/miss counters and the
classification of any subsequent `get` are unchanged) — but it returns
absent only when *no* entry is resident for the key: a resident expired
entry still yields a metadata object (with `expiresIn` clamped to 0). -/
theorem C9_getMetadata_peek_amended {V : Type} (c : ResponseCache V) (now : Nat)
    (p m : String) (now2 : Nat) (p2 m2 : String) :
    (c.getMetadata now p m).2 = c ∧
    ((c.getMetadata now p m).1 = none ↔
      mapGet c.cache (generateKey p m defaultOpts) = none) ∧
    ((c.getMetadata now p m).2).get now2 p2 m2 = c.get now2 p2 m2 ∧
    ((c.getMetadata now p m).2).stats = c.stats := by
  have hid : (c.getMetadata now p m).2 = c := by
    unfold ResponseCache.getMetadata
    cases mapGet c.cache (generateKey p m defaultOpts) with
    | none => rfl
    | some e => rfl
  refine ⟨hid, ?_, by rw [hid], by rw [hid]⟩
  unfold ResponseCache.getMetadata
  cases mapGet c.cache (generateKey p m defaultOpts) with
  | none => simp
  | some e => simp

/-- C10: `import` with a matching version only writes at snapshot keys:
every resident entry at a key outside the snapshot is unchanged, every
key resident before is still resident after (no eviction regardless of
capacity), and the hit/miss/set counters are untouched (snapshot
statistics are never restored). -/
theorem C10_import_frame {V : Type} (c : ResponseCache V) (now : Nat)
    (data : Snapshot V) (k k2 : String) (hv : data.version = 1)
    (hnot : k ∉ data.entries.map Prod.fst)
    (hres : (mapGet c.cache k2).isSome = true) :
    mapGet ((c.importData now data).2).cache k = mapGet c.cache k ∧
    (mapGet ((c.importData now data).2).cache k2).isSome = true ∧
    ((c.importData now data).2).stats = c.stats := by
  have hv' : ¬ (data.version ≠ 1) := by simp [hv]
  simp only [ResponseCache.importData, if_neg hv']
  refine ⟨importGo_mapGet_not_mem now data.entries c.cache 0 k hnot,
    importGo_isSome now data.entries c.cache 0 k2 hres, ?_⟩
  trivial

/-- C10 witness: importing a one-entry snapshot next to an unrelated
resident entry. -/
theorem C10_import_frame_witness :
    mapGet ((((⟨[("a", ⟨7, 0, 100, 0, 0, "m", 1, 1⟩)], ⟨3, 4, 5, 0⟩, 1000, 10, 5000⟩ :
        ResponseCache Nat)).importData 0
        ⟨1, 0, [("b", ⟨8, 0, 100, 0, 0, "m", 1, 1⟩)],
          (mkResponseCache none none none : ResponseCache Nat).getStats⟩).2).cache "a" =
      mapGet ((⟨[("a", ⟨7, 0, 100, 0, 0, "m", 1, 1⟩)], ⟨3, 4, 5, 0⟩, 1000, 10, 5000⟩ :
        ResponseCache Nat) : ResponseCache Nat).cache "a" :=
  (C10_import_frame
    ((⟨[("a", ⟨7, 0, 100, 0, 0, "m", 1, 1⟩)], ⟨3, 4, 5, 0⟩, 1000, 10, 5000⟩ :
      ResponseCache Nat)) 0
    ⟨1, 0, [("b", ⟨8, 0, 100, 0, 0, "m", 1, 1⟩)],
      (mkResponseCache none none none : ResponseCache Nat).getStats⟩
    "a" "a" (by decide) (by decide) (by decide)).1
